import Mathlib

/-!
Verification of the Google Sheets quickstart program (src/quickstart.go).

The program is a linear script: read `client_secret.json`, obtain an OAuth
token (from the cache file `~/.credentials/...json` when it parses, otherwise
via the interactive authorization-code flow, persisting the result), issue one
Sheets API read, print the rows, and write them to `gsheet_result.csv`.

The shallow embedding below translates that control flow into pure Lean
functions.  External library I/O (the json encoder/decoder of the token file,
the HTTP client, the console) is represented by its observable effect on an
abstract environment `Env` and an event trace; the `encoding/csv` writer and
the `bufio` buffering underneath it are modelled from their Go sources at the
level the claims need (exact bytes for the csv encoding, byte counts for the
buffer/flush behaviour).
-/

/-- OAuth2 token as decoded from the cache file: access token, token type,
refresh token and expiry timestamp (fields of golang.org/x/oauth2.Token that
quickstart.go logs).  The expiry is an abstract timestamp. -/
structure Token where
  accessToken : String
  tokenType : String
  refreshToken : String
  expiry : Int
deriving DecidableEq

/-- Observable states of the token cache file, as seen through `os.Open` and
`json.Decoder.Decode` in `tokenFromFile`: the file may fail to open, may open
but fail to decode (leaving a partially decoded token value), or decode to a
token. -/
inductive TokenFileContent where
  | absent
  | invalid (p : Token)
  | valid (t : Token)
deriving DecidableEq

/-- Errors `tokenFromFile` can return: the `os.Open` error or the json decode
error. -/
inductive TokErr where
  | openError
  | decodeError
deriving DecidableEq

/-- Translation of `tokenFromFile` (src/quickstart.go lines 70-83): open the
file (returning `(nil, err)` on failure), allocate `t := &oauth2.Token{}`,
decode into it, and return `(t, err)` — the pointer is non-nil whenever the
open succeeded, even if decoding failed. -/
def tokenFromFile : TokenFileContent → Option Token × Option TokErr
  | .absent => (none, some .openError)
  | .invalid p => (some p, some .decodeError)
  | .valid t => (some t, none)

/-- Cell value of the Sheets API response (`resp.Values` has type
`[][]interface{}`): either a string, or some non-string dynamic value on which
the type assertion `item.(string)` panics. -/
inductive CellValue where
  | str (s : String)
  | nonString
deriving DecidableEq

/-- Whether the dynamic cell value is a string (the type assertion
`item.(string)` succeeds exactly on these). -/
def CellValue.isString : CellValue → Bool
  | .str _ => true
  | .nonString => false

/-- Text of a cell, defined on all cells for stating theorems; the program
itself never converts a non-string cell (it panics instead). -/
def stringsOf (r : List CellValue) : List String :=
  r.map fun c => match c with
    | .str s => s
    | .nonString => ""

/-- Translation of the inner loop of `main` building `cur` (lines 157-159):
append `item.(string)` for each cell; a non-string cell makes the type
assertion panic, so the row yields no record. -/
def convertRow : List CellValue → Option (List String)
  | [] => some []
  | c :: cs =>
    match c with
    | .str s => (convertRow cs).map (fun t => s :: t)
    | .nonString => none

/-- Translation of the CSV writing loop of `main` (lines 156-163): rows are
processed in order; each row is converted cell by cell and passed to
`writer.Write`; a panic on a non-string cell terminates the process, so no
later row is written.  Returns the records handed to the csv writer, in order,
and whether the loop aborted with a panic. -/
def csvWriteLoop : List (List CellValue) → List (List String) × Bool
  | [] => ([], false)
  | r :: rs =>
    match convertRow r with
    | none => ([], true)
    | some fields =>
      let rest := csvWriteLoop rs
      (fields :: rest.1, rest.2)

/-! ## The csv encoder (Go `encoding/csv.Writer` with default settings) -/

/-- Characters that force quoting of a csv field (Go
`Writer.fieldNeedsQuotes` with `Comma = ','` and `UseCRLF = false`). -/
def specialChar (c : Char) : Bool :=
  (c == ',') || (c == '"') || (c == '\r') || (c == '\n')

/-- Go `Writer.fieldNeedsQuotes`: the empty field is not quoted; the literal
field `\.` is always quoted; a field containing the comma, a double quote, CR
or LF is quoted; otherwise the field is quoted iff its first character is a
space character. -/
def needsQuotes (f : List Char) : Bool :=
  match f with
  | [] => false
  | c :: _ => (f == ['\\', '.']) || f.any specialChar || c.isWhitespace

/-- Body of a quoted csv field as Go writes it: every `"` is doubled, all
other characters (including CR and LF, since `UseCRLF` is false) are written
as-is. -/
def escField : List Char → List Char
  | [] => []
  | c :: cs => if c = '"' then '"' :: '"' :: escField cs else c :: escField cs

/-- A single encoded csv field: quoted with doubled inner quotes when
`needsQuotes`, verbatim otherwise. -/
def encField (f : List Char) : List Char :=
  if needsQuotes f then '"' :: (escField f ++ ['"']) else f

/-- Fields of one record joined with the comma separator. -/
def joinSep : List (List Char) → List Char
  | [] => []
  | [f] => encField f
  | f :: fs => encField f ++ ',' :: joinSep fs

/-- One csv record as written by `Writer.Write`: the joined fields followed by
the `\n` terminator (`UseCRLF = false`). -/
def writeRecordL (r : List (List Char)) : List Char :=
  joinSep r ++ ['\n']

/-- Concatenation of all records: the byte content of `gsheet_result.csv`
when every write and the final flush succeed. -/
def writeAllL : List (List (List Char)) → List Char
  | [] => []
  | r :: rs => writeRecordL r ++ writeAllL rs

/-- String-level csv output for a list of records. -/
def writeCSV (rows : List (List String)) : String :=
  ⟨writeAllL (rows.map fun r => r.map String.data)⟩

/-! ## A standard CSV reader

Modelled from the spec: the repository contains no csv reader; the spec only
demands that the output parse back "per standard CSV escaping".  The parser
below follows RFC 4180 with `\n` record terminators (the terminator the writer
emits): a field either starts with a quote — then it extends to the next
undoubled quote, with doubled quotes unescaped — or extends to the next comma
or newline; records are separated by newlines, a final newline ends the last
record. -/

/-- Terminators of a bare (unquoted) field. -/
def isFieldEnd (c : Char) : Bool :=
  (c == ',') || (c == '\n')

/-- Parse the remainder of a quoted field (the opening quote already
consumed): `acc` holds the text read so far; a doubled quote contributes one
quote to the field; a single quote closes it.  Fails on an unterminated
field. -/
def parseQuoted (l acc : List Char) : Option (List Char × List Char) :=
  match l with
  | [] => none
  | c :: rest =>
    if c = '"' then
      if rest.head? = some '"' then parseQuoted rest.tail (acc ++ ['"'])
      else some (acc, rest)
    else parseQuoted rest (acc ++ [c])
termination_by l.length
decreasing_by
  · simp [List.length_tail]
    omega
  · simp

/-- Parse one field; the remainder starts with the character that ended the
field (a comma, a newline, or nothing). -/
def parseField (l : List Char) : Option (List Char × List Char) :=
  if l.head? = some '"' then parseQuoted l.tail []
  else some (l.takeWhile (fun x => !isFieldEnd x),
             l.dropWhile (fun x => !isFieldEnd x))

/-- Parse one record (fuelled recursion over the commas): fields separated by
commas, ended by a newline or the end of input. -/
def parseRecF : Nat → List Char → Option (List (List Char) × List Char)
  | 0, _ => none
  | fuel + 1, l =>
    match parseField l with
    | none => none
    | some (f, rest) =>
      match rest with
      | [] => some ([f], [])
      | c :: rest2 =>
        if c = ',' then
          match parseRecF fuel rest2 with
          | none => none
          | some (fs, rest3) => some (f :: fs, rest3)
        else if c = '\n' then some ([f], rest2)
        else none

/-- Parse a sequence of records until the input is exhausted (fuelled
recursion over the records; each record gets fuel bounded by its input). -/
def parseAllF : Nat → List Char → Option (List (List (List Char)))
  | 0, _ => none
  | _ + 1, [] => some []
  | fuel + 1, c :: l =>
    match parseRecF (l.length + 2) (c :: l) with
    | none => none
    | some (r, rest) =>
      match parseAllF fuel rest with
      | none => none
      | some rs => some (r :: rs)

/-- Parse a csv file into records of string fields. -/
def parseCSV (s : String) : Option (List (List String)) :=
  (parseAllF (s.data.length + 1) s.data).map
    (fun rs => rs.map fun r => r.map fun f => (⟨f⟩ : String))

/-! ## Byte-count model of csv writing through `bufio`

`csv.NewWriter(file)` interposes a 4096-byte `bufio.Writer` between the csv
encoder and the file.  `Writer.Write` only returns an error when an
intermediate flush to the file fails; `checkError` then calls `log.Fatal`,
i.e. `os.Exit`, which skips the deferred `writer.Flush()` and `file.Close()`,
so exactly the bytes already flushed remain on disk.  The model below tracks
byte counts: the state is `(flushed bytes on disk, bytes in the buffer)`, the
disk accepts writes while the file stays within `cap` bytes (a disk-full
model; a failing underlying write is taken as atomic and writes nothing). -/

/-- Size of the `bufio.Writer` buffer created by `bufio.NewWriter`. -/
def bufSize : Nat := 4096

/-- Go `bufio.Writer.Write` of `n` bytes in state `(fl, bu)`: data that fits
in the buffer is buffered; a large write with an empty buffer goes directly to
the file; otherwise the buffer is topped up to `bufSize`, flushed, and the
remainder is either buffered or written directly.  On a failed flush the
error carries the bytes on disk at that moment. -/
def bufioWrite (cap fl bu n : Nat) : Except Nat (Nat × Nat) :=
  if n ≤ bufSize - bu then .ok (fl, bu + n)
  else if bu = 0 then
    if fl + n ≤ cap then .ok (fl + n, 0) else .error fl
  else if fl + bufSize ≤ cap then
    if n - (bufSize - bu) ≤ bufSize then .ok (fl + bufSize, n - (bufSize - bu))
    else if (fl + bufSize) + (n - (bufSize - bu)) ≤ cap then
      .ok ((fl + bufSize) + (n - (bufSize - bu)), 0)
    else .error (fl + bufSize)
  else .error fl

/-- Write a sequence of chunks (the csv writer emits a record as several
underlying writes: each encoded field, each comma, the newline). -/
def writeChunks (cap : Nat) (st : Nat × Nat) : List Nat → Except Nat (Nat × Nat)
  | [] => .ok st
  | n :: ns =>
    match bufioWrite cap st.1 st.2 n with
    | .error e => .error e
    | .ok st2 => writeChunks cap st2 ns

/-- Outcome of the csv writing loop at the byte level: `fatal` carries the
size of `gsheet_result.csv` at process exit (the deferred flush is skipped),
`success` carries the flushed and still-buffered byte counts. -/
inductive CsvByteOutcome where
  | fatal (fileBytes : Nat)
  | success (flushed buffered : Nat)
deriving DecidableEq

/-- The csv writing loop of `main` at the byte level: the chunks of each record go
through the buffer; the first failing write makes `checkError` call
`log.Fatal`, terminating the process with the flushed bytes on disk. -/
def csvRunBuf (cap : Nat) (st : Nat × Nat) : List (List Nat) → CsvByteOutcome
  | [] => .success st.1 st.2
  | r :: rs =>
    match writeChunks cap st r with
    | .error e => .fatal e
    | .ok st2 => csvRunBuf cap st2 rs

/-- Sizes of the underlying writes for one record: encoded field, separating
commas, terminating newline. -/
def fieldChunks : List String → List Nat
  | [] => []
  | [f] => [(encField f.data).length]
  | f :: fs => (encField f.data).length :: 1 :: fieldChunks fs

/-- Chunk sizes of a full record including the newline terminator. -/
def recordChunks (r : List String) : List Nat :=
  fieldChunks r ++ [1]

/-! ## The program run model -/

/-- Observable events of one run, in program order.  `consoleRead` is the
`fmt.Scan` call, `tokenExchange` and `sheetsAPIRequest` are the two network
calls, `writeCacheFile` is the token persisted by `saveToken`,
`writeCSVRecord` is one `writer.Write` call. -/
inductive Ev where
  | readClientSecretFile
  | userCurrentCall
  | openCacheFile
  | printAuthURL
  | consoleRead
  | tokenExchange (code : String)
  | writeCacheFile (t : Token)
  | sheetsAPIRequest
  | printHeader
  | printRow (row : List CellValue)
  | printNoData
  | createCSVFile
  | writeCSVRecord (fields : List String)
deriving DecidableEq

/-- The events of the interactive authorization step (`getTokenFromWeb`):
printing the authorization URL, reading the code from the console, and the
code-for-token exchange. -/
def Ev.isInteractive : Ev → Bool
  | .printAuthURL => true
  | .consoleRead => true
  | .tokenExchange _ => true
  | _ => false

/-- The events that perform a network call. -/
def Ev.isNetwork : Ev → Bool
  | .tokenExchange _ => true
  | .sheetsAPIRequest => true
  | _ => false

/-- Process outcome: normal exit 0, or `log.Fatal` with a diagnostic. -/
inductive Outcome where
  | success
  | fatal (msg : String)
deriving DecidableEq

/-- Observable result of a run: the event trace, the outcome, the token cache
file at exit, the token the HTTP client was built from (`config.Client(ctx,
tok)`), and the records handed to the csv writer (`none` while
`gsheet_result.csv` was never created). -/
structure RunResult where
  events : List Ev
  outcome : Outcome
  cacheAfter : TokenFileContent
  clientToken : Option Token
  csvRecords : Option (List (List String))

/-- Environment a run executes against: success or failure of each external
step, the cache file content, the console input, and the responses of the two
remote endpoints. -/
structure Env where
  secretRead : Bool
  secretParses : Bool
  userCurrentOk : Bool
  cacheContent : TokenFileContent
  consoleReadOk : Bool
  authCode : String
  exchange : String → Option Token
  saveOpenOk : Bool
  sheetsNewOk : Bool
  apiResponse : Option (List (List CellValue))
  csvCreateOk : Bool

/-- The tail of `main` after `getClient` returned a client built from `tok`
(src/quickstart.go lines 113-165): construct the Sheets service, issue the
read request, print the rows (or "No data found."), create
`gsheet_result.csv`, and run the csv writing loop; any failure is fatal. -/
def afterToken (env : Env) (tok : Token) (evs : List Ev) (cc : TokenFileContent) :
    RunResult :=
  if env.sheetsNewOk then
    match env.apiResponse with
    | none =>
      ⟨evs ++ [.sheetsAPIRequest], .fatal "Unable to retrieve data from sheet",
       cc, some tok, none⟩
    | some rows =>
      let printEvs : List Ev :=
        if rows.length > 0 then .printHeader :: rows.map Ev.printRow
        else [.printNoData]
      if env.csvCreateOk then
        let wr := csvWriteLoop rows
        ⟨evs ++ [.sheetsAPIRequest] ++ printEvs ++ [.createCSVFile]
           ++ wr.1.map Ev.writeCSVRecord,
         if wr.2 then .fatal "interface conversion panic" else .success,
         cc, some tok, some wr.1⟩
      else
        ⟨evs ++ [.sheetsAPIRequest] ++ printEvs ++ [.createCSVFile],
         .fatal "Cannot create file", cc, some tok, none⟩
  else ⟨evs, .fatal "Unable to retrieve Sheets Client", cc, some tok, none⟩

/-- Whole-program run (src/quickstart.go `main`, `getClient`,
`getTokenFromWeb`, `tokenCacheFile`, `saveToken`): read and parse the client
secret, resolve the cache path via `user.Current`, load the cached token; on
any load error run the interactive flow (print URL, read code, exchange) and
persist the obtained token; then continue with `afterToken`. -/
def runMain (env : Env) : RunResult :=
  if env.secretRead then
    if env.secretParses then
      if env.userCurrentOk then
        match tokenFromFile env.cacheContent with
        | (some tok, none) =>
          afterToken env tok
            [.readClientSecretFile, .userCurrentCall, .openCacheFile]
            env.cacheContent
        | _ =>
          if env.consoleReadOk then
            match env.exchange env.authCode with
            | some tok =>
              if env.saveOpenOk then
                afterToken env tok
                  [.readClientSecretFile, .userCurrentCall, .openCacheFile,
                   .printAuthURL, .consoleRead, .tokenExchange env.authCode,
                   .writeCacheFile tok]
                  (.valid tok)
              else
                ⟨[.readClientSecretFile, .userCurrentCall, .openCacheFile,
                  .printAuthURL, .consoleRead, .tokenExchange env.authCode],
                 .fatal "Unable to cache oauth token", env.cacheContent, none, none⟩
            | none =>
              ⟨[.readClientSecretFile, .userCurrentCall, .openCacheFile,
                .printAuthURL, .consoleRead, .tokenExchange env.authCode],
               .fatal "Unable to retrieve token from web", env.cacheContent,
               none, none⟩
          else
            ⟨[.readClientSecretFile, .userCurrentCall, .openCacheFile,
              .printAuthURL, .consoleRead],
             .fatal "Unable to read authorization code", env.cacheContent,
             none, none⟩
      else
        ⟨[.readClientSecretFile, .userCurrentCall],
         .fatal "Unable to get path to cached credential file",
         env.cacheContent, none, none⟩
    else
      ⟨[.readClientSecretFile],
       .fatal "Unable to parse client secret file to config",
       env.cacheContent, none, none⟩
  else
    ⟨[.readClientSecretFile], .fatal "Unable to read client secret file",
     env.cacheContent, none, none⟩

/-- A token with the expiry field replaced, for stating that expiry is never
inspected. -/
def setExpiry (t : Token) (e : Int) : Token :=
  ⟨t.accessToken, t.tokenType, t.refreshToken, e⟩

/-! ## Concrete inputs for witnesses and counterexamples -/

/-- A sample token. -/
def tok1 : Token := ⟨"ya29.sample-access", "Bearer", "1-sample-refresh", 1500000000⟩

/-- A zero-valued token, as json decoding leaves it when the file content is
not valid token json. -/
def tokZero : Token := ⟨"", "", "", 0⟩

/-- A response whose cells are all strings. -/
def allStrRows : List (List CellValue) :=
  [[.str "Alice", .str "A"], [.str "Bob", .str "B"]]

/-- A response with a non-string cell in its second row. -/
def badRows : List (List CellValue) :=
  [[.str "a"], [.str "b", .nonString], [.str "c"]]

/-- Records with a comma and a double quote in cells, for the round trip. -/
def rtRows : List (List String) := [["Alice", "A,x"], ["Bo\"b", "B"]]

/-- A 2999-character cell, sized to exercise the 4096-byte bufio buffer. -/
def bigCell : String := ⟨List.replicate 2999 'a'⟩

/-- Three single-cell records of 3000 encoded bytes each: writing them against
a 4096-byte disk capacity flushes 4096 bytes successfully and then fails. -/
def bigRows : List (List String) := [[bigCell], [bigCell], [bigCell]]

/-- Environment of a run with a valid cached token and a two-row response. -/
def envCached : Env :=
  ⟨true, true, true, .valid tok1, true, "4-auth-code", fun _ => some tok1,
   true, true, some allStrRows, true⟩

/-- Environment whose client secret file is unreadable. -/
def envNoSecret : Env :=
  ⟨false, true, true, .valid tok1, true, "4-auth-code", fun _ => some tok1,
   true, true, some allStrRows, true⟩

/-- Environment with no cache file, where the interactive flow succeeds. -/
def envAbsent : Env :=
  ⟨true, true, true, .absent, true, "4-auth-code", fun _ => some tok1,
   true, true, some allStrRows, true⟩

/-- Environment with a valid cached token and an empty response. -/
def envEmpty : Env :=
  ⟨true, true, true, .valid tok1, true, "4-auth-code", fun _ => some tok1,
   true, true, some [], true⟩

/-- Environment with a valid cached token and a response containing a
non-string cell. -/
def envBadRows : Env :=
  ⟨true, true, true, .valid tok1, true, "4-auth-code", fun _ => some tok1,
   true, true, some badRows, true⟩

/-! ## Helper lemmas: the csv reader inverts the csv writer -/

theorem parseQuoted_escField (f : List Char) :
    ∀ (acc : List Char) (sep : Char) (rest : List Char), sep ≠ '"' →
      parseQuoted (escField f ++ '"' :: sep :: rest) acc =
        some (acc ++ f, sep :: rest) := by
  induction f with
  | nil =>
    intro acc sep rest hsep
    simp [escField, parseQuoted, hsep]
  | cons c cs ih =>
    intro acc sep rest hsep
    by_cases hc : c = '"'
    · subst hc
      rw [show escField ('"' :: cs) ++ '"' :: sep :: rest =
            '"' :: ('"' :: (escField cs ++ '"' :: sep :: rest)) from by
          simp [escField]]
      rw [parseQuoted]
      simp only [if_pos rfl, List.head?_cons, List.tail_cons, if_pos rfl]
      rw [ih (acc ++ ['"']) sep rest hsep]
      simp
    · rw [show escField (c :: cs) ++ '"' :: sep :: rest =
            c :: (escField cs ++ '"' :: sep :: rest) from by
          simp [escField, hc]]
      rw [parseQuoted]
      simp only [if_neg hc]
      rw [ih (acc ++ [c]) sep rest hsep]
      simp

theorem needsQuotes_false_any (f : List Char) (h : needsQuotes f = false) :
    f.any specialChar = false := by
  cases f with
  | nil => rfl
  | cons c cs =>
    simp only [needsQuotes, Bool.or_eq_false_iff] at h
    exact h.1.2

theorem not_special_not_end {x : Char} (h : specialChar x = false) :
    isFieldEnd x = false := by
  simp only [specialChar, Bool.or_eq_false_iff] at h
  simp only [isFieldEnd, Bool.or_eq_false_iff]
  exact ⟨h.1.1.1, h.2⟩

theorem takeWhile_field (f : List Char) (sep : Char) (rest : List Char)
    (hf : ∀ x ∈ f, isFieldEnd x = false) (hsep : isFieldEnd sep = true) :
    (f ++ sep :: rest).takeWhile (fun x => !isFieldEnd x) = f ∧
    (f ++ sep :: rest).dropWhile (fun x => !isFieldEnd x) = sep :: rest := by
  induction f with
  | nil => simp [List.takeWhile, List.dropWhile, hsep]
  | cons c cs ih =>
    have hc := hf c (List.mem_cons_self c cs)
    have ih2 := ih fun x hx => hf x (List.mem_cons_of_mem c hx)
    simp [List.takeWhile, List.dropWhile, hc, ih2.1, ih2.2]

theorem parseField_encField (f : List Char) (sep : Char) (rest : List Char)
    (hsep : sep = ',' ∨ sep = '\n') :
    parseField (encField f ++ sep :: rest) = some (f, sep :: rest) := by
  have hsepq : sep ≠ '"' := by rcases hsep with h | h <;> subst h <;> decide
  have hsepe : isFieldEnd sep = true := by
    rcases hsep with h | h <;> subst h <;> decide
  by_cases hq : needsQuotes f
  · rw [show encField f ++ sep :: rest =
        '"' :: (escField f ++ '"' :: sep :: rest) from by
      simp [encField, hq]]
    rw [parseField]
    simp only [List.head?_cons, if_pos rfl, List.tail_cons]
    rw [parseQuoted_escField f [] sep rest hsepq]
    simp
  · have hq2 : needsQuotes f = false := by
      simp only [Bool.not_eq_true] at hq
      exact hq
    have hfs : ∀ x ∈ f, specialChar x = false := by
      intro x hx
      exact Bool.eq_false_iff.mpr (List.any_eq_false.mp (needsQuotes_false_any f hq2) x hx)
    have hf : ∀ x ∈ f, isFieldEnd x = false :=
      fun x hx => not_special_not_end (hfs x hx)
    rw [show encField f = f from by simp [encField, hq2]]
    have hw := takeWhile_field f sep rest hf hsepe
    have hhd : (f ++ sep :: rest).head? ≠ some '"' := by
      cases f with
      | nil =>
        simp only [List.nil_append, List.head?_cons]
        intro hcon
        exact hsepq (Option.some.inj hcon)
      | cons c cs =>
        simp only [List.cons_append, List.head?_cons]
        intro hcon
        have hc := hfs c (List.mem_cons_self c cs)
        rw [Option.some.inj hcon] at hc
        simp [specialChar] at hc
    rw [parseField]
    rw [if_neg hhd, hw.1, hw.2]

theorem joinSep_len (fs : List (List Char)) (h : fs ≠ []) :
    fs.length ≤ (joinSep fs).length + 1 := by
  induction fs with
  | nil => cases h rfl
  | cons f fs ih =>
    cases fs with
    | nil => simp [joinSep]
    | cons g gs =>
      have := ih (by simp)
      simp only [joinSep, List.length_cons, List.length_append] at *
      omega

theorem parseRecF_record (fs : List (List Char)) :
    ∀ (fuel : Nat) (rest : List Char), fs ≠ [] → fs.length ≤ fuel →
      parseRecF fuel (joinSep fs ++ '\n' :: rest) = some (fs, rest) := by
  induction fs with
  | nil => intro fuel rest h _; cases h rfl
  | cons f fs ih =>
    intro fuel rest _ hfuel
    cases fuel with
    | zero => simp at hfuel
    | succ fuel =>
      cases fs with
      | nil =>
        rw [show joinSep [f] = encField f from rfl]
        rw [parseRecF]
        rw [parseField_encField f '\n' rest (Or.inr rfl)]
        simp
      | cons g gs =>
        rw [show joinSep (f :: g :: gs) ++ '\n' :: rest =
            encField f ++ ',' :: (joinSep (g :: gs) ++ '\n' :: rest) from by
          simp [joinSep]]
        rw [parseRecF]
        rw [parseField_encField f ',' (joinSep (g :: gs) ++ '\n' :: rest) (Or.inl rfl)]
        simp only [if_pos rfl]
        rw [ih fuel rest (by simp)
          (by simp only [List.length_cons] at hfuel ⊢; omega)]
        simp

theorem writeAllL_len (rows : List (List (List Char))) :
    rows.length ≤ (writeAllL rows).length := by
  induction rows with
  | nil => simp [writeAllL]
  | cons r rs ih =>
    simp only [writeAllL, writeRecordL, List.length_cons, List.length_append]
    simp at ih ⊢
    omega

theorem parseAllF_writeAllL (rows : List (List (List Char))) :
    ∀ fuel : Nat, (∀ r ∈ rows, r ≠ []) → rows.length < fuel →
      parseAllF fuel (writeAllL rows) = some rows := by
  induction rows with
  | nil =>
    intro fuel _ hfuel
    cases fuel with
    | zero => omega
    | succ fuel => rfl
  | cons r rs ih =>
    intro fuel hne hfuel
    cases fuel with
    | zero => omega
    | succ fuel =>
      have hr : r ≠ [] := hne r (List.mem_cons_self r rs)
      have hshape : writeAllL (r :: rs) = joinSep r ++ '\n' :: writeAllL rs := by
        simp [writeAllL, writeRecordL]
    -- expose the head character so the parseAllF equation applies
      obtain ⟨c, l, hcl⟩ : ∃ c l, writeAllL (r :: rs) = c :: l := by
        rw [hshape]
        cases hjs : joinSep r with
        | nil => exact ⟨'\n', writeAllL rs, by simp⟩
        | cons c cs => exact ⟨c, cs ++ '\n' :: writeAllL rs, by simp⟩
      rw [hcl, parseAllF]
      have hlen : r.length ≤ l.length + 2 := by
        have h1 := joinSep_len r hr
        have h2 : (joinSep r).length + 1 + (writeAllL rs).length = l.length + 1 := by
          have := congrArg List.length hcl
          rw [hshape] at hcl
          have := congrArg List.length hcl
          simp only [List.length_append, List.length_cons] at this
          omega
        omega
      rw [← hcl, hshape, parseRecF_record r (l.length + 2) (writeAllL rs) hr hlen]
      have hih := ih fuel (fun x hx => hne x (List.mem_cons_of_mem r hx))
        (by simp only [List.length_cons] at hfuel; omega)
      simp [hih]

theorem map_mk_data (r : List String) :
    (r.map String.data).map (fun l => (⟨l⟩ : String)) = r := by
  induction r with
  | nil => rfl
  | cons s ss ih => simp [ih]

theorem map_map_mk (rows : List (List String)) :
    ((rows.map fun r => r.map String.data).map fun r =>
        r.map fun f => (⟨f⟩ : String)) = rows := by
  induction rows with
  | nil => rfl
  | cons r rs ih => simp only [List.map_cons, ih, map_mk_data]

theorem csv_roundtrip_aux (rows : List (List String)) (h : ∀ r ∈ rows, r ≠ []) :
    parseCSV (writeCSV rows) = some rows := by
  have hL : ∀ r ∈ rows.map (fun r => r.map String.data), r ≠ [] := by
    intro r hr
    rcases List.mem_map.mp hr with ⟨s, hs, rfl⟩
    simp [h s hs]
  have hlen := writeAllL_len (rows.map fun r => r.map String.data)
  have hp := parseAllF_writeAllL (rows.map fun r => r.map String.data)
    ((writeAllL (rows.map fun r => r.map String.data)).length + 1) hL
    (by simp only [List.length_map] at hlen ⊢; omega)
  unfold parseCSV writeCSV
  rw [show (⟨writeAllL (rows.map fun r => r.map String.data)⟩ : String).data =
      writeAllL (rows.map fun r => r.map String.data) from rfl]
  rw [hp]
  simp only [Option.map_some']
  rw [map_map_mk]

/-! ## Helper lemmas: the cell conversion loop -/

theorem convertRow_all (r : List CellValue) (h : r.all CellValue.isString = true) :
    convertRow r = some (stringsOf r) := by
  induction r with
  | nil => rfl
  | cons c cs ih =>
    simp only [List.all_cons, Bool.and_eq_true] at h
    cases c with
    | str s => simp [convertRow, stringsOf, ih h.2, List.map_cons]
    | nonString => simp [CellValue.isString] at h

theorem convertRow_bad (r : List CellValue) (h : r.all CellValue.isString = false) :
    convertRow r = none := by
  induction r with
  | nil => simp [List.all_nil] at h
  | cons c cs ih =>
    cases c with
    | str s =>
      simp only [List.all_cons, CellValue.isString, Bool.true_and] at h
      simp [convertRow, ih h]
    | nonString => rfl

theorem csvWriteLoop_all (rows : List (List CellValue))
    (h : ∀ r ∈ rows, r.all CellValue.isString = true) :
    csvWriteLoop rows = (rows.map stringsOf, false) := by
  induction rows with
  | nil => rfl
  | cons r rs ih =>
    rw [csvWriteLoop, convertRow_all r (h r (List.mem_cons_self r rs))]
    rw [ih fun x hx => h x (List.mem_cons_of_mem r hx)]
    simp

theorem csvWriteLoop_bad (rows : List (List CellValue))
    (h : ∃ r ∈ rows, r.all CellValue.isString = false) :
    csvWriteLoop rows =
      ((rows.takeWhile fun r => r.all CellValue.isString).map stringsOf, true) := by
  induction rows with
  | nil => rcases h with ⟨r, hr, _⟩; cases hr
  | cons r rs ih =>
    cases hra : r.all CellValue.isString with
    | false =>
      rw [csvWriteLoop, convertRow_bad r hra]
      simp [List.takeWhile_cons, hra]
    | true =>
      have hbad : ∃ x ∈ rs, x.all CellValue.isString = false := by
        rcases h with ⟨x, hx, hxf⟩
        rcases List.mem_cons.mp hx with rfl | hmem
        · rw [hra] at hxf; cases hxf
        · exact ⟨x, hmem, hxf⟩
      rw [csvWriteLoop, convertRow_all r hra, ih hbad]
      simp [List.takeWhile_cons, hra]

/-! ## Helper lemmas: the buffered byte model -/

theorem bufioWrite_error_le (cap fl bu n e : Nat)
    (h : bufioWrite cap fl bu n = .error e) : e ≤ fl + bu + n := by
  unfold bufioWrite at h
  split at h
  · cases h
  · split at h
    · split at h
      · cases h
      · cases h; omega
    · split at h
      · split at h
        · cases h
        · split at h
          · cases h
          · cases h; simp only [bufSize] at *; omega
      · cases h; omega

theorem bufioWrite_ok_le (cap fl bu n fl2 bu2 : Nat)
    (h : bufioWrite cap fl bu n = .ok (fl2, bu2)) : fl2 + bu2 ≤ fl + bu + n := by
  unfold bufioWrite at h
  split at h
  · cases h; omega
  · split at h
    · split at h
      · cases h; omega
      · cases h
    · split at h
      · split at h
        · cases h; simp only [bufSize] at *; omega
        · split at h
          · cases h; simp only [bufSize] at *; omega
          · cases h
      · cases h

theorem writeChunks_error_le (cap : Nat) (ns : List Nat) :
    ∀ (st : Nat × Nat) (e : Nat), writeChunks cap st ns = .error e →
      e ≤ st.1 + st.2 + ns.sum := by
  induction ns with
  | nil => intro st e h; cases h
  | cons n ns ih =>
    intro st e h
    rw [writeChunks] at h
    cases hb : bufioWrite cap st.1 st.2 n with
    | error e2 =>
      rw [hb] at h
      cases h
      have := bufioWrite_error_le cap st.1 st.2 n e hb
      simp only [List.sum_cons]
      omega
    | ok st2 =>
      rw [hb] at h
      have h1 := bufioWrite_ok_le cap st.1 st.2 n st2.1 st2.2 (by rw [hb])
      have h2 := ih st2 e h
      simp only [List.sum_cons]
      omega

theorem writeChunks_ok_le (cap : Nat) (ns : List Nat) :
    ∀ (st st2 : Nat × Nat), writeChunks cap st ns = .ok st2 →
      st2.1 + st2.2 ≤ st.1 + st.2 + ns.sum := by
  induction ns with
  | nil => intro st st2 h; cases h; simp
  | cons n ns ih =>
    intro st st2 h
    rw [writeChunks] at h
    cases hb : bufioWrite cap st.1 st.2 n with
    | error e2 => rw [hb] at h; cases h
    | ok st1 =>
      rw [hb] at h
      have h1 := bufioWrite_ok_le cap st.1 st.2 n st1.1 st1.2 (by rw [hb])
      have h2 := ih st1 st2 h
      simp only [List.sum_cons]
      omega

theorem csvRunBuf_fatal_le (cap : Nat) (rows : List (List Nat)) :
    ∀ (st : Nat × Nat) (fb : Nat), csvRunBuf cap st rows = .fatal fb →
      fb ≤ st.1 + st.2 + (rows.map List.sum).sum := by
  induction rows with
  | nil => intro st fb h; cases h
  | cons r rs ih =>
    intro st fb h
    rw [csvRunBuf] at h
    cases hw : writeChunks cap st r with
    | error e =>
      rw [hw] at h
      cases h
      have := writeChunks_error_le cap r st fb hw
      simp only [List.map_cons, List.sum_cons]
      omega
    | ok st2 =>
      rw [hw] at h
      have h1 := writeChunks_ok_le cap r st st2 hw
      have h2 := ih st2 fb h
      simp only [List.map_cons, List.sum_cons]
      omega

/-! ## Helper lemmas: encoded size of the big records -/

theorem any_replicate_false (n : Nat) (c : Char) (p : Char → Bool)
    (hp : p c = false) : (List.replicate n c).any p = false := by
  induction n with
  | zero => rfl
  | succ n ih => simp [List.replicate_succ, List.any_cons, hp, ih]

theorem needsQuotes_replicate_a (n : Nat) :
    needsQuotes (List.replicate (n + 1) 'a') = false := by
  have h1 : (List.replicate (n + 1) 'a').any specialChar = false :=
    any_replicate_false (n + 1) 'a' specialChar (by decide)
  have h2 : ((List.replicate (n + 1) 'a') == ['\\', '.']) = false := by
    rw [beq_eq_false_iff_ne]
    rw [List.replicate_succ]
    intro hcon
    injection hcon with ha _
    exact absurd ha (by decide)
  rw [List.replicate_succ, needsQuotes]
  rw [List.replicate_succ] at h1 h2
  rw [h1, h2]
  simp

theorem bigRows_chunks :
    bigRows.map recordChunks = [[2999, 1], [2999, 1], [2999, 1]] := by
  have hq : needsQuotes (List.replicate 2999 'a') = false := by
    have h := needsQuotes_replicate_a 2998
    norm_num at h
    exact h
  have henc : encField bigCell.data = List.replicate 2999 'a' := by
    show encField (List.replicate 2999 'a') = List.replicate 2999 'a'
    rw [encField, hq]
    rfl
  have hlen : (encField bigCell.data).length = 2999 := by
    rw [henc, List.length_replicate]
  simp only [bigRows, List.map_cons, List.map_nil, recordChunks, fieldChunks,
    hlen]
  rfl

/-! ## Helper lemmas: the run model -/

theorem printRows_noninteractive (rows : List (List CellValue)) :
    (rows.map Ev.printRow).all (fun e => !e.isInteractive) = true := by
  induction rows with
  | nil => rfl
  | cons r rs ih => simp [List.map_cons, List.all_cons, ih, Ev.isInteractive]

theorem writeRecords_noninteractive (recs : List (List String)) :
    (recs.map Ev.writeCSVRecord).all (fun e => !e.isInteractive) = true := by
  induction recs with
  | nil => rfl
  | cons r rs ih => simp [List.map_cons, List.all_cons, ih, Ev.isInteractive]

theorem afterToken_clientToken (env : Env) (tok : Token) (evs : List Ev)
    (cc : TokenFileContent) : (afterToken env tok evs cc).clientToken = some tok := by
  unfold afterToken
  repeat' split
  all_goals rfl

theorem afterToken_cacheAfter (env : Env) (tok : Token) (evs : List Ev)
    (cc : TokenFileContent) : (afterToken env tok evs cc).cacheAfter = cc := by
  unfold afterToken
  repeat' split
  all_goals rfl

theorem afterToken_all_noninteractive (env : Env) (tok : Token) (evs : List Ev)
    (cc : TokenFileContent) (h : evs.all (fun e => !e.isInteractive) = true) :
    (afterToken env tok evs cc).events.all (fun e => !e.isInteractive) = true := by
  have h2 : ∀ x ∈ evs, x.isInteractive = false := by
    intro x hx
    have hb := List.all_eq_true.mp h x hx
    cases hxi : x.isInteractive
    · rfl
    · rw [hxi] at hb
      simp at hb
  unfold afterToken
  repeat' split
  all_goals simp [List.all_append, List.all_cons, Ev.isInteractive,
    printRows_noninteractive, writeRecords_noninteractive]
  all_goals exact h2

theorem afterToken_mem (env : Env) (tok : Token) (evs : List Ev)
    (cc : TokenFileContent) (e : Ev) (h : e ∈ evs) :
    e ∈ (afterToken env tok evs cc).events := by
  unfold afterToken
  repeat' split
  all_goals simp [List.mem_append, h]

theorem runMain_cached (env : Env) (t : Token)
    (h1 : env.secretRead = true) (h2 : env.secretParses = true)
    (h3 : env.userCurrentOk = true) (h4 : env.cacheContent = .valid t) :
    runMain env = afterToken env t
      [.readClientSecretFile, .userCurrentCall, .openCacheFile]
      env.cacheContent := by
  rw [runMain, if_pos h1, if_pos h2, if_pos h3, h4]
  rfl

theorem runMain_interactive (env : Env) (t : Token)
    (h1 : env.secretRead = true) (h2 : env.secretParses = true)
    (h3 : env.userCurrentOk = true)
    (h4 : env.cacheContent = .absent ∨ ∃ p, env.cacheContent = .invalid p)
    (h5 : env.consoleReadOk = true)
    (h6 : env.exchange env.authCode = some t)
    (h7 : env.saveOpenOk = true) :
    runMain env = afterToken env t
      [.readClientSecretFile, .userCurrentCall, .openCacheFile, .printAuthURL,
       .consoleRead, .tokenExchange env.authCode, .writeCacheFile t]
      (.valid t) := by
  rw [runMain, if_pos h1, if_pos h2, if_pos h3]
  rcases h4 with h4 | ⟨p, h4⟩ <;>
    rw [h4] <;>
    simp only [tokenFromFile] <;>
    rw [if_pos h5, h6] <;>
    simp only [if_pos h7]

theorem afterToken_empty (env : Env) (tok : Token) (evs : List Ev)
    (cc : TokenFileContent) (h5 : env.sheetsNewOk = true)
    (h6 : env.apiResponse = some []) (h7 : env.csvCreateOk = true) :
    (afterToken env tok evs cc).outcome = .success ∧
    Ev.printNoData ∈ (afterToken env tok evs cc).events ∧
    (afterToken env tok evs cc).csvRecords = some [] := by
  unfold afterToken
  rw [h6]
  simp [h5, h7, csvWriteLoop, List.mem_append]

theorem afterToken_bad (env : Env) (tok : Token) (evs : List Ev)
    (cc : TokenFileContent) (rows : List (List CellValue))
    (h5 : env.sheetsNewOk = true) (h6 : env.apiResponse = some rows)
    (h7 : env.csvCreateOk = true)
    (hbad : ∃ r ∈ rows, r.all CellValue.isString = false) :
    (afterToken env tok evs cc).outcome = .fatal "interface conversion panic" := by
  unfold afterToken
  rw [h6]
  have hw := csvWriteLoop_bad rows hbad
  simp [h5, h7, hw]

/-! ## The claims -/

/-- C1: in every run whose token cache file exists and parses as a valid token
(and which reaches the token step: client secret read and parsed, cache path
resolved), the HTTP client is built from the cached token and the trace
contains no console read, no authorization URL print and no token exchange —
`getTokenFromWeb` is never invoked. -/
theorem claim_C1_cached_token_no_interaction (env : Env) (t : Token)
    (h1 : env.secretRead = true) (h2 : env.secretParses = true)
    (h3 : env.userCurrentOk = true) (h4 : env.cacheContent = .valid t) :
    (runMain env).clientToken = some t ∧
    (runMain env).events.all (fun e => !e.isInteractive) = true := by
  rw [runMain_cached env t h1 h2 h3 h4]
  exact ⟨afterToken_clientToken _ _ _ _,
    afterToken_all_noninteractive _ _ _ _ (by decide)⟩

/-- Witness for C1 at the concrete environment `envCached`. -/
theorem claim_C1_witness :
    envCached.secretRead = true ∧ envCached.secretParses = true ∧
    envCached.userCurrentOk = true ∧ envCached.cacheContent = .valid tok1 ∧
    ((runMain envCached).clientToken = some tok1 ∧
     (runMain envCached).events.all (fun e => !e.isInteractive) = true) :=
  ⟨rfl, rfl, rfl, rfl,
   claim_C1_cached_token_no_interaction envCached tok1 rfl rfl rfl rfl⟩

/-- C2: in every run where loading the cache file fails (missing file or
decode failure) and the interactive flow succeeds, the trace contains the full
interactive authorization (URL print, console read, token exchange) followed
by the cache write of the obtained token, and the cache file afterwards loads
back as exactly that token. -/
theorem claim_C2_bad_cache_interactive_flow (env : Env) (t : Token)
    (h1 : env.secretRead = true) (h2 : env.secretParses = true)
    (h3 : env.userCurrentOk = true)
    (h4 : env.cacheContent = .absent ∨ ∃ p, env.cacheContent = .invalid p)
    (h5 : env.consoleReadOk = true)
    (h6 : env.exchange env.authCode = some t)
    (h7 : env.saveOpenOk = true) :
    Ev.printAuthURL ∈ (runMain env).events ∧
    Ev.consoleRead ∈ (runMain env).events ∧
    Ev.tokenExchange env.authCode ∈ (runMain env).events ∧
    Ev.writeCacheFile t ∈ (runMain env).events ∧
    (runMain env).cacheAfter = .valid t ∧
    tokenFromFile (runMain env).cacheAfter = (some t, none) := by
  rw [runMain_interactive env t h1 h2 h3 h4 h5 h6 h7]
  refine ⟨afterToken_mem _ _ _ _ _ (by simp), afterToken_mem _ _ _ _ _ (by simp),
    afterToken_mem _ _ _ _ _ (by simp), afterToken_mem _ _ _ _ _ (by simp),
    afterToken_cacheAfter _ _ _ _, ?_⟩
  rw [afterToken_cacheAfter]
  rfl

/-- Witness for C2 at the concrete environment `envAbsent`. -/
theorem claim_C2_witness :
    envAbsent.cacheContent = .absent ∧
    (Ev.printAuthURL ∈ (runMain envAbsent).events ∧
     Ev.consoleRead ∈ (runMain envAbsent).events ∧
     Ev.tokenExchange envAbsent.authCode ∈ (runMain envAbsent).events ∧
     Ev.writeCacheFile tok1 ∈ (runMain envAbsent).events ∧
     (runMain envAbsent).cacheAfter = .valid tok1 ∧
     tokenFromFile (runMain envAbsent).cacheAfter = (some tok1, none)) :=
  ⟨rfl, claim_C2_bad_cache_interactive_flow envAbsent tok1 rfl rfl rfl
    (Or.inl rfl) rfl rfl rfl⟩

/-- C3: for every response whose cells are all strings, the csv write step
hands the writer exactly one record per row — the strings of the row in column
order, no header record, no abort — and on the rows Alice,A / Bob,B the file
content is exactly the two lines "Alice,A" and "Bob,B". -/
theorem claim_C3_allstring_rows_one_record_per_row (rows : List (List CellValue))
    (h : ∀ r ∈ rows, r.all CellValue.isString = true) :
    csvWriteLoop rows = (rows.map stringsOf, false) ∧
    writeCSV [["Alice", "A"], ["Bob", "B"]] = "Alice,A\nBob,B\n" :=
  ⟨csvWriteLoop_all rows h, by decide⟩

/-- Witness for C3 at the concrete response `allStrRows`. -/
theorem claim_C3_witness :
    (∀ r ∈ allStrRows, r.all CellValue.isString = true) ∧
    (csvWriteLoop allStrRows = (allStrRows.map stringsOf, false) ∧
     writeCSV [["Alice", "A"], ["Bob", "B"]] = "Alice,A\nBob,B\n") :=
  ⟨by decide, claim_C3_allstring_rows_one_record_per_row allStrRows (by decide)⟩

/-- C4: for every response containing a non-string cell, the csv write step
aborts: the records handed to the writer are exactly those of the rows before
the first offending row (no later row is written, no non-string cell is
coerced), and the run ends with the fatal interface-conversion panic. -/
theorem claim_C4_nonstring_cell_fatal (rows : List (List CellValue))
    (h : ∃ r ∈ rows, ∃ c ∈ r, c.isString = false) :
    csvWriteLoop rows =
      ((rows.takeWhile fun r => r.all CellValue.isString).map stringsOf, true) ∧
    ∀ (env : Env) (tok : Token) (evs : List Ev) (cc : TokenFileContent),
      env.sheetsNewOk = true → env.apiResponse = some rows →
      env.csvCreateOk = true →
      (afterToken env tok evs cc).outcome = .fatal "interface conversion panic" := by
  have hbad : ∃ r ∈ rows, r.all CellValue.isString = false := by
    rcases h with ⟨r, hr, c, hc, hcf⟩
    refine ⟨r, hr, ?_⟩
    cases hall : r.all CellValue.isString
    · rfl
    · have := List.all_eq_true.mp hall c hc
      rw [hcf] at this
      exact absurd this (by decide)
  exact ⟨csvWriteLoop_bad rows hbad,
    fun env tok evs cc h5 h6 h7 => afterToken_bad env tok evs cc rows h5 h6 h7 hbad⟩

/-- Witness for C4 at the concrete response `badRows` and environment
`envBadRows`. -/
theorem claim_C4_witness :
    (∃ r ∈ badRows, ∃ c ∈ r, c.isString = false) ∧
    csvWriteLoop badRows =
      ((badRows.takeWhile fun r => r.all CellValue.isString).map stringsOf, true) ∧
    (afterToken envBadRows tok1 [] TokenFileContent.absent).outcome =
      .fatal "interface conversion panic" := by
  have h : ∃ r ∈ badRows, ∃ c ∈ r, c.isString = false := by decide
  have hmain := claim_C4_nonstring_cell_fatal badRows h
  exact ⟨h, hmain.1, hmain.2 envBadRows tok1 [] .absent rfl rfl rfl⟩

/-- C5 counterexample: a failing csv write step can leave a nonzero file.
Three records of 3000 bytes against a disk that accepts 4096 bytes: the first
buffer flush of 4096 bytes succeeds, the next one fails, `checkError` calls
`log.Fatal`, and the file holds 4096 bytes — neither absent nor zero bytes. -/
theorem claim_C5_counterexample :
    csvRunBuf 4096 (0, 0) (bigRows.map recordChunks) = .fatal 4096 ∧
    (4096 : Nat) ≠ 0 := by
  rw [bigRows_chunks]
  exact ⟨by decide, by decide⟩

/-- C5 (amended): when the csv write step fails, the program aborts, and the
output file retains exactly the bytes flushed before the failure — at most the
total encoded size of the records submitted, possibly nonzero (only the
still-buffered data is guaranteed lost; the file is zero bytes only when no
intermediate flush succeeded). -/
theorem claim_C5_write_failure_flushed_bound (cap : Nat)
    (rows : List (List String)) (fb : Nat)
    (h : csvRunBuf cap (0, 0) (rows.map recordChunks) = .fatal fb) :
    fb ≤ ((rows.map recordChunks).map List.sum).sum := by
  have hb := csvRunBuf_fatal_le cap (rows.map recordChunks) (0, 0) fb h
  simpa using hb

/-- Witness for the amended C5 at the concrete input `bigRows`. -/
theorem claim_C5_witness :
    csvRunBuf 4096 (0, 0) (bigRows.map recordChunks) = CsvByteOutcome.fatal 4096 ∧
    4096 ≤ ((bigRows.map recordChunks).map List.sum).sum := by
  have h : csvRunBuf 4096 (0, 0) (bigRows.map recordChunks) = .fatal 4096 := by
    rw [bigRows_chunks]
    decide
  exact ⟨h, claim_C5_write_failure_flushed_bound 4096 bigRows 4096 h⟩

/-- C6: when the client secret file cannot be read, the run is fatal at the
configuration step, its whole trace is the single failed file read, and in
particular no network call (token exchange or Sheets request) happens. -/
theorem claim_C6_no_secret_no_network (env : Env) (h : env.secretRead = false) :
    (runMain env).outcome = .fatal "Unable to read client secret file" ∧
    (runMain env).events = [.readClientSecretFile] ∧
    (runMain env).events.all (fun e => !e.isNetwork) = true := by
  have hr : runMain env =
      ⟨[.readClientSecretFile], .fatal "Unable to read client secret file",
       env.cacheContent, none, none⟩ := by
    rw [runMain, if_neg (by simp [h])]
  rw [hr]
  exact ⟨rfl, rfl, rfl⟩

/-- Witness for C6 at the concrete environment `envNoSecret`. -/
theorem claim_C6_witness :
    envNoSecret.secretRead = false ∧
    ((runMain envNoSecret).outcome = .fatal "Unable to read client secret file" ∧
     (runMain envNoSecret).events = [.readClientSecretFile] ∧
     (runMain envNoSecret).events.all (fun e => !e.isNetwork) = true) :=
  ⟨rfl, claim_C6_no_secret_no_network envNoSecret rfl⟩

/-- C7: a present, parseable cache file is trusted as-is: `tokenFromFile`
returns the token unconditionally — for every expiry value, with no clock
anywhere in its semantics — and the run builds its HTTP client from exactly
that token. -/
theorem claim_C7_cache_trusted_no_expiry_check (env : Env) (t : Token)
    (h1 : env.secretRead = true) (h2 : env.secretParses = true)
    (h3 : env.userCurrentOk = true) (h4 : env.cacheContent = .valid t) :
    tokenFromFile (.valid t) = (some t, none) ∧
    (∀ e : Int, tokenFromFile (.valid (setExpiry t e)) =
      (some (setExpiry t e), none)) ∧
    (runMain env).clientToken = some t := by
  refine ⟨rfl, fun e => rfl, ?_⟩
  rw [runMain_cached env t h1 h2 h3 h4]
  exact afterToken_clientToken _ _ _ _

/-- Witness for C7 at the concrete environment `envCached`, with the expiry
instantiated to a long-past timestamp. -/
theorem claim_C7_witness :
    envCached.cacheContent = .valid tok1 ∧
    tokenFromFile (.valid tok1) = (some tok1, none) ∧
    tokenFromFile (.valid (setExpiry tok1 0)) = (some (setExpiry tok1 0), none) ∧
    (runMain envCached).clientToken = some tok1 := by
  have h := claim_C7_cache_trusted_no_expiry_check envCached tok1 rfl rfl rfl rfl
  exact ⟨rfl, h.1, h.2.1 0, h.2.2⟩

/-- C8 counterexample: write-then-parse does not recover every all-string
response.  The empty row `[[]]` and the one-empty-cell row `[[""]]` both
serialize to the single byte "\n", so no parse can invert the writer on both;
the standard reader returns the one-empty-field record, not the empty row. -/
theorem claim_C8_counterexample :
    writeCSV [[]] = writeCSV [[""]] ∧
    ([[]] : List (List String)) ≠ [[""]] ∧
    parseCSV (writeCSV ([[]] : List (List String))) ≠ some [[]] :=
  ⟨by decide, by decide, by decide⟩

/-- C8 (amended): for every response whose cells are all strings and whose
rows each contain at least one cell, writing the rows to csv and parsing the
file back per standard csv escaping yields exactly the original rows, every
text of every cell unchanged — including cells containing commas or double quotes. -/
theorem claim_C8_roundtrip_nonempty_rows (rows : List (List String))
    (h : ∀ r ∈ rows, r ≠ []) :
    parseCSV (writeCSV rows) = some rows :=
  csv_roundtrip_aux rows h

/-- Witness for the amended C8 at records containing a comma and a double
quote. -/
theorem claim_C8_witness :
    (∀ r ∈ rtRows, r ≠ []) ∧ parseCSV (writeCSV rtRows) = some rtRows :=
  ⟨by decide, claim_C8_roundtrip_nonempty_rows rtRows (by decide)⟩

/-- C9: `tokenFromFile` returns a nil token only when the file could not be
opened; when the file opens but decoding fails it returns the partially
decoded (possibly zero-valued) token together with the decode error, so only
the error value distinguishes a valid load. -/
theorem claim_C9_decode_failure_nonnil_token :
    (∀ p : Token, tokenFromFile (.invalid p) = (some p, some .decodeError)) ∧
    (∀ c : TokenFileContent, (tokenFromFile c).1 = none ↔ c = .absent) := by
  refine ⟨fun p => rfl, fun c => ?_⟩
  cases c <;> simp [tokenFromFile]

/-- Witness for C9 at the zero-valued partially decoded token and the absent
file. -/
theorem claim_C9_witness :
    tokenFromFile (.invalid tokZero) = (some tokZero, some .decodeError) ∧
    ((tokenFromFile .absent).1 = none ↔ TokenFileContent.absent = .absent) :=
  ⟨claim_C9_decode_failure_nonnil_token.1 tokZero,
   claim_C9_decode_failure_nonnil_token.2 .absent⟩

/-- C10: in every run that reaches the API call and receives zero rows, the
program prints "No data found.", still creates `gsheet_result.csv`, hands the
writer no records (the file renders to zero bytes), and exits successfully. -/
theorem claim_C10_empty_response (env : Env)
    (h1 : env.secretRead = true) (h2 : env.secretParses = true)
    (h3 : env.userCurrentOk = true)
    (h4 : (∃ t, env.cacheContent = .valid t) ∨
      (env.consoleReadOk = true ∧ (∃ t, env.exchange env.authCode = some t) ∧
       env.saveOpenOk = true))
    (h5 : env.sheetsNewOk = true) (h6 : env.apiResponse = some [])
    (h7 : env.csvCreateOk = true) :
    (runMain env).outcome = .success ∧
    Ev.printNoData ∈ (runMain env).events ∧
    (runMain env).csvRecords = some [] ∧
    writeCSV [] = "" := by
  cases hcc : env.cacheContent with
  | valid t =>
    rw [runMain_cached env t h1 h2 h3 hcc]
    have h := afterToken_empty env t
      [.readClientSecretFile, .userCurrentCall, .openCacheFile]
      env.cacheContent h5 h6 h7
    exact ⟨h.1, h.2.1, h.2.2, by decide⟩
  | absent =>
    rcases h4 with ⟨t, hv⟩ | ⟨hc, ⟨t, he⟩, hs⟩
    · rw [hcc] at hv
      cases hv
    · rw [runMain_interactive env t h1 h2 h3 (Or.inl hcc) hc he hs]
      have h := afterToken_empty env t
        [.readClientSecretFile, .userCurrentCall, .openCacheFile, .printAuthURL,
         .consoleRead, .tokenExchange env.authCode, .writeCacheFile t]
        (.valid t) h5 h6 h7
      exact ⟨h.1, h.2.1, h.2.2, by decide⟩
  | invalid p =>
    rcases h4 with ⟨t, hv⟩ | ⟨hc, ⟨t, he⟩, hs⟩
    · rw [hcc] at hv
      cases hv
    · rw [runMain_interactive env t h1 h2 h3 (Or.inr ⟨p, hcc⟩) hc he hs]
      have h := afterToken_empty env t
        [.readClientSecretFile, .userCurrentCall, .openCacheFile, .printAuthURL,
         .consoleRead, .tokenExchange env.authCode, .writeCacheFile t]
        (.valid t) h5 h6 h7
      exact ⟨h.1, h.2.1, h.2.2, by decide⟩

/-- Witness for C10 at the concrete environment `envEmpty`. -/
theorem claim_C10_witness :
    envEmpty.apiResponse = some [] ∧
    ((runMain envEmpty).outcome = .success ∧
     Ev.printNoData ∈ (runMain envEmpty).events ∧
     (runMain envEmpty).csvRecords = some [] ∧
     writeCSV [] = "") :=
  ⟨rfl, claim_C10_empty_response envEmpty rfl rfl rfl (Or.inl ⟨tok1, rfl⟩)
    rfl rfl rfl⟩
